import Mathlib

/-!
Verification of `httpsource/mux.go` (junk13/httpwatch): a single-input,
multi-output fan-out distributor (`PairMux`) that reads items from a source
channel and copies each item to every registered output channel, using a
configurable per-write delivery strategy (blocking, non-blocking, or
non-blocking with timeout), closing all outputs and signalling completion
when the source is exhausted.

The embedding models Go buffered channels as a capacity plus a FIFO list of
buffered values plus a closed flag.  A send to a channel with no waiting
receiver succeeds immediately iff the buffer has room; `select` with a
`default` branch takes `default` iff no other branch is immediately ready.
The distribution goroutine is the only execution that reads the source and
writes the outputs, so its whole run is modelled as a sequential function of
the source contents (the list of items sent before the source was closed).
-/

set_option autoImplicit false

namespace Httpwatch

/-- Modelled from the spec: `RequestResponsePair` is declared elsewhere in the
`httpsource` package (not in the verified file).  The distributor treats it as
an opaque item ("a request/response pair") that is only forwarded, never
inspected, so it is modelled as an opaque wrapper around an identifier. -/
structure RequestResponsePair where
  id : Nat
deriving DecidableEq, Repr

/-- A Go buffered channel: `cap` is the buffer capacity fixed by `make`,
`buf` the values currently buffered (front = next to be received), `closed`
whether `close` has been called on it. -/
structure Chan (α : Type) where
  cap : Nat
  buf : List α
  closed : Bool
deriving DecidableEq, Repr

/-- `output` from mux.go: a name plus the destination channel `dst`. -/
structure output (α : Type) where
  name : String
  dst : Chan α
deriving DecidableEq, Repr

/-- Which writer function a `PairMux` was configured with.  mux.go stores the
writer as a function value; the three possible values are
`blockingOutputWriter`, `makeTimeoutOutputWriter(timeout)` and
`nonBlockingOutputWriter`, so the stored value is modelled as a tag. -/
inductive WriterKind where
  | blockingW
  | timedW (timeout : Int)
  | nonBlockingW
deriving DecidableEq, Repr

/-- `PairMux` from mux.go.  `src` holds the items the producer sends before
closing the source channel (the run consumes them in order); `timeout` is the
`time.Duration` argument (an integer number of nanoseconds in Go).  The
`sync.Mutex` field needs no counterpart: the single distribution goroutine
and each API call are modelled as atomic steps, which is exactly what the
lock provides. -/
structure PairMux (α : Type) where
  Finished : Chan Bool
  outputs : List (output α)
  src : List α
  blocking : Bool
  timeout : Int
  writer : WriterKind
  started : Bool
deriving DecidableEq, Repr

variable {α : Type}

/-- `NewBlockingPairMux`: blocking writer, `Finished` made with buffer 1. -/
def NewBlockingPairMux (src : List α) : PairMux α :=
  { Finished := { cap := 1, buf := [], closed := false }
    outputs := []
    src := src
    blocking := true
    timeout := 0
    writer := .blockingW
    started := false }

/-- `NewNonBlockingPairMux`: non-blocking writer, with
`makeTimeoutOutputWriter(timeout)` selected when `timeout != 0` and
`nonBlockingOutputWriter` otherwise; `Finished` made with buffer 1. -/
def NewNonBlockingPairMux (src : List α) (timeout : Int) : PairMux α :=
  let m : PairMux α :=
    { Finished := { cap := 1, buf := [], closed := false }
      outputs := []
      src := src
      blocking := false
      timeout := timeout
      writer := .nonBlockingW
      started := false }
  if timeout ≠ 0 then { m with writer := .timedW timeout }
  else { m with writer := .nonBlockingW }

/-- `make(chan *RequestResponsePair, buf)`: Go's `make` panics when the
buffer size is negative, modelled as `none`; otherwise it yields a fresh
open channel with empty buffer and capacity `buf`. -/
def makeChan (β : Type) (buf : Int) : Option (Chan β) :=
  if buf < 0 then none
  else some { cap := buf.toNat, buf := [], closed := false }

/-- `AddOutput(name, buf)`: makes a fresh channel, appends
`output{name, c}` to the outputs under the lock, and returns the channel as
the read handle.  `none` models the `make` panic on a negative buffer. -/
def AddOutput (m : PairMux α) (name : String) (buf : Int) :
    Option (PairMux α × Chan α) :=
  (makeChan α buf).map fun c =>
    ({ m with outputs := m.outputs ++ [⟨name, c⟩] }, c)

/-- `blockingOutputWriter`: `o.dst <- item` with no `select`, so the goroutine
suspends until the destination has room and then delivers.  In this embedding
the destination buffer records the sequence of items delivered to the output,
so the (eventually successful) blocking send is the append; the wait itself
has no observable effect on what the output receives. -/
def blockingOutputWriter (o : output α) (item : α) : output α :=
  { o with dst := { o.dst with buf := o.dst.buf ++ [item] } }

/-- `nonBlockingOutputWriter`: `select { case o.dst <- item: ... default: }`.
With no waiting receiver the send branch is immediately ready iff the buffer
has room; otherwise the `default` branch is taken and the item is dropped for
this output (the TODO comment in the source would log the failure). -/
def nonBlockingOutputWriter (o : output α) (item : α) : output α :=
  if o.dst.buf.length < o.dst.cap then
    { o with dst := { o.dst with buf := o.dst.buf ++ [item] } }
  else o

/-- State effect of one writer call inside `RunStep`.  The timed writer races
the send against a timer; when the destination is not drained during the
attempt (the only consumer-free behaviour expressible in this snapshot
model), it delivers iff the buffer has room now — the same state effect as
the non-blocking writer.  The timed writer's temporal behaviour is modelled
separately by `timedWrite` below. -/
def writerApply : WriterKind → output α → α → output α
  | .blockingW, o, item => blockingOutputWriter o item
  | .nonBlockingW, o, item => nonBlockingOutputWriter o item
  | .timedW _, o, item => nonBlockingOutputWriter o item

/-- `RunStep`: receive one item from `src`; if the source is closed and
drained (`!ok`) return `false`; otherwise snapshot the outputs under the
lock, apply the configured writer to each output in order, and return
`true`. -/
def RunStep (m : PairMux α) : PairMux α × Bool :=
  match m.src with
  | [] => (m, false)
  | item :: rest =>
      ({ m with
          src := rest
          outputs := m.outputs.map fun o => writerApply m.writer o item }, true)

/-- `m.Finished <- true` as performed by `shutdown`: with no receiver waiting,
the send completes without blocking iff the buffer has room (`none` models
the send blocking forever). -/
def chanSend (c : Chan Bool) (v : Bool) : Option (Chan Bool) :=
  if c.buf.length < c.cap then some { c with buf := c.buf ++ [v] }
  else none

/-- `shutdown`: under the lock, close every registered output's destination
channel, then send `true` on `Finished`.  The result is `none` exactly when
that final send would block. -/
def shutdown (m : PairMux α) : Option (PairMux α) :=
  let outs := m.outputs.map fun o => { o with dst := { o.dst with closed := true } }
  (chanSend m.Finished true).map fun fin =>
    { m with outputs := outs, Finished := fin }

/-- The body of the goroutine launched by `Start`, with explicit fuel to make
the recursion structural:
`for { if !m.RunStep() { m.shutdown(); return } }`.
Each iteration with a non-empty source consumes exactly one source item, so
fuel `m.src.length` always suffices and the out-of-fuel branch (`none`) is
unreachable from `runAll`. -/
def runGo : Nat → PairMux α → Option (PairMux α)
  | 0, m =>
      match m.src with
      | [] => shutdown m
      | _ :: _ => none
  | fuel + 1, m =>
      match m.src with
      | [] => shutdown m
      | _ :: _ => runGo fuel (RunStep m).1

/-- The whole run of the distribution goroutine: iterate `RunStep` until the
source is exhausted, then `shutdown`. -/
def runAll (m : PairMux α) : Option (PairMux α) :=
  runGo m.src.length m

/-- `Start`: under the lock, if `started` is already set do nothing and
launch no goroutine; otherwise launch the copying goroutine and set
`started`.  The returned `Bool` records whether a goroutine was launched by
this call. -/
def Start (m : PairMux α) : PairMux α × Bool :=
  if m.started then (m, false)
  else ({ m with started := true }, true)

/-- `n` successive calls to `Start` on `m`; the `Nat` counts how many of them
launched the copying goroutine. -/
def startN (m : PairMux α) : Nat → PairMux α × Nat
  | 0 => (m, 0)
  | n + 1 =>
      let s := Start m
      let r := startN s.1 n
      (r.1, (if s.2 then 1 else 0) + r.2)

/-- One call of `WaitUntilFinished` (`<-m.Finished`) after the run is over,
when no further send on `Finished` will ever happen: it returns at once with
a buffered value if one is present, returns the zero value at once if the
channel is closed, and otherwise blocks forever (`none`). -/
def chanRecv (c : Chan Bool) : Option (Bool × Chan Bool) :=
  match c.buf with
  | v :: rest => some (v, { c with buf := rest })
  | [] => if c.closed then some (false, c) else none

/-- `k` callers of `WaitUntilFinished` against the `Finished` channel after
the run is over (no further sends ever occur): counts how many of them
return.  Each returning caller that consumed a buffered value leaves one
fewer value for the rest; a caller that blocks leaves every later caller
blocked too. -/
def waitReturned (c : Chan Bool) : Nat → Nat
  | 0 => 0
  | k + 1 =>
      match chanRecv c with
      | some p => 1 + waitReturned p.2 k
      | none => 0

/-- Observable events of `shutdown`, in program order: closing the
destination channel of the output at position `idx` (carrying its name), and
sending the completion value on `Finished`. -/
inductive MuxEvent where
  | closeOutput (idx : Nat) (name : String)
  | signalFinished
deriving DecidableEq, Repr

/-- The close events emitted by `for _, output := range m.outputs
{ close(output.dst) }`, with `i` the position of the first output. -/
def closeTrace : Nat → List (output α) → List MuxEvent
  | _, [] => []
  | i, o :: os => .closeOutput i o.name :: closeTrace (i + 1) os

/-- The event trace of one call of `shutdown`: close every registered
output's destination in order, then send on `Finished`. -/
def shutdownTrace (outs : List (output α)) : List MuxEvent :=
  closeTrace 0 outs ++ [.signalFinished]

/-- Outcome of one attempted write to one output. -/
inductive WriteOutcome where
  | delivered (t : Nat)
  | timedOut
deriving DecidableEq, Repr

/-- The tick at which the killer goroutine of `makeTimeoutOutputWriter`
(`time.Sleep(timeout); kill <- true`) makes the `<-kill` branch ready.
`time.Sleep` returns immediately for a zero or negative duration. -/
def timerFire (timeout : Int) : Nat := timeout.toNat

/-- Discrete-time model of one call of the writer made by
`makeTimeoutOutputWriter(timeout)`: `select { case o.dst <- item: case
<-kill: }` races the send against the timer.  `space t` says whether the
destination can accept the item at tick `t` (buffer room, or a consumer
receiving).  The send branch fires at the first tick at which the
destination has room, provided the timer has not yet won; once the timer
fires the attempt is abandoned.  At the tie tick the model resolves the
race in favour of the send (Go leaves the choice unspecified). -/
def timedWrite (timeout : Int) (space : Nat → Bool) : WriteOutcome :=
  match (List.range (timerFire timeout + 1)).find? space with
  | some t => .delivered t
  | none => .timedOut

/-- How long one attempted timed write stalls the distribution loop: until
delivery, or until the timer fires. -/
def stallOf (timeout : Int) : WriteOutcome → Nat
  | .delivered t => t
  | .timedOut => timerFire timeout

/-- The cumulative effect of the `RunStep` iterations on the outputs: apply
the writer to every output for each source item in order. -/
def distribute (w : WriterKind) (outs : List (output α)) : List α → List (output α)
  | [] => outs
  | item :: rest => distribute w (outs.map fun o => writerApply w o item) rest

theorem runGo_eq_distribute (src : List α) :
    ∀ (fuel : Nat) (m : PairMux α), m.src = src → src.length ≤ fuel →
      runGo fuel m =
        shutdown { m with src := [], outputs := distribute m.writer m.outputs src } := by
  induction src with
  | nil =>
      intro fuel m hsrc _
      have hm : { m with src := ([] : List α), outputs := m.outputs } = m := by
        cases m; simp_all
      cases fuel <;> simp [runGo, hsrc, distribute, hm]
  | cons item rest ih =>
      intro fuel m hsrc hfuel
      cases fuel with
      | zero => simp [hsrc] at hfuel
      | succ fuel =>
          have hstep :
              (RunStep m).1 =
                { m with src := rest,
                         outputs := m.outputs.map fun o => writerApply m.writer o item } := by
            simp [RunStep, hsrc]
          have hlen : rest.length ≤ fuel := by
            simpa [hsrc, Nat.succ_le_succ_iff] using hfuel
          have := ih fuel (RunStep m).1 (by simp [hstep]) hlen
          simp only [runGo, hsrc]
          rw [this, hstep]
          simp [distribute]

theorem runAll_eq_distribute (m : PairMux α) :
    runAll m =
      shutdown { m with src := [], outputs := distribute m.writer m.outputs m.src } :=
  runGo_eq_distribute m.src m.src.length m rfl le_rfl

/-- Under the blocking writer, distributing `src` appends `src` to every
output's delivered sequence. -/
theorem distribute_blockingW (src : List α) :
    ∀ outs : List (output α),
      distribute .blockingW outs src =
        outs.map fun o => { o with dst := { o.dst with buf := o.dst.buf ++ src } } := by
  induction src with
  | nil =>
      intro outs
      have : (fun o : output α => { o with dst := { o.dst with buf := o.dst.buf ++ [] } }) =
          fun o => o := by
        funext o; cases o with | mk name dst => cases dst; simp
      simp [distribute, this]
  | cons item rest ih =>
      intro outs
      simp only [distribute, writerApply, ih, List.map_map]
      refine List.map_congr_left fun o _ => ?_
      cases o with | mk name dst => cases dst; simp [blockingOutputWriter]

/-- `shutdown` on a mux whose `Finished` channel is still the fresh buffer-1
channel made by the constructors: the completion send finds room, so
`shutdown` completes without blocking. -/
theorem shutdown_fresh (m : PairMux α)
    (hfin : m.Finished = { cap := 1, buf := [], closed := false }) :
    shutdown m =
      some { m with
        outputs := m.outputs.map fun o => { o with dst := { o.dst with closed := true } },
        Finished := { cap := 1, buf := [true], closed := false } } := by
  simp [shutdown, chanSend, hfin]

/-- After the run no caller of `WaitUntilFinished` returns if the buffer is
empty: the channel is never closed and nothing is ever sent again. -/
theorem waitReturned_empty_open (k : Nat) :
    waitReturned { cap := 1, buf := [], closed := false } k = 0 := by
  cases k <;> simp [waitReturned, chanRecv]

/-- Against the post-shutdown `Finished` channel (one buffered value, never
closed), exactly `min k 1` of `k` callers of `WaitUntilFinished` return. -/
theorem waitReturned_one_value (k : Nat) :
    waitReturned { cap := 1, buf := [true], closed := false } k = min k 1 := by
  cases k with
  | zero => simp [waitReturned]
  | succ k =>
      simp [waitReturned, chanRecv, waitReturned_empty_open]

theorem closeTrace_length (outs : List (output α)) :
    ∀ i, (closeTrace i outs).length = outs.length := by
  induction outs with
  | nil => intro i; simp [closeTrace]
  | cons o os ih => intro i; simp [closeTrace, ih]

theorem closeTrace_count_signal (outs : List (output α)) :
    ∀ i, (closeTrace i outs).count MuxEvent.signalFinished = 0 := by
  induction outs with
  | nil => intro i; simp [closeTrace]
  | cons o os ih => intro i; simp [closeTrace, List.count_cons, ih]

/-- A close event whose index is below the starting index does not occur. -/
theorem closeTrace_count_lt (os : List (output α)) :
    ∀ (j i : Nat) (nm : String), i < j →
      (closeTrace j os).count (MuxEvent.closeOutput i nm) = 0 := by
  induction os with
  | nil => intro j i nm _; simp [closeTrace]
  | cons o os ih =>
      intro j i nm hij
      have hne : MuxEvent.closeOutput i nm ≠ MuxEvent.closeOutput j o.name := by
        intro h
        cases h
        omega
      simp [closeTrace, List.count_cons, hne, ih (j + 1) i nm (by omega)]

/-- Each output's close event occurs exactly once in the close loop's trace:
once if the position and name match a registered output, never otherwise. -/
theorem closeTrace_count (os : List (output α)) :
    ∀ (j i : Nat) (nm : String),
      (closeTrace j os).count (MuxEvent.closeOutput (j + i) nm) =
        if (os.get? i).map (fun o => o.name) = some nm then 1 else 0 := by
  induction os with
  | nil => intro j i nm; simp [closeTrace]
  | cons o os ih =>
      intro j i nm
      cases i with
      | zero =>
          have htail : (closeTrace (j + 1) os).count (MuxEvent.closeOutput j nm) = 0 :=
            closeTrace_count_lt os (j + 1) j nm (by omega)
          by_cases hnm : nm = o.name
          · subst hnm
            simp [closeTrace, List.count_cons, htail]
          · have hne : MuxEvent.closeOutput (j + 0) nm ≠ MuxEvent.closeOutput j o.name := by
              intro h
              injection h with h1 h2
              exact hnm h2
            simp [closeTrace, List.count_cons, htail, hne, Ne.symm hnm]
      | succ i =>
          have hne : MuxEvent.closeOutput (j + (i + 1)) nm ≠
              MuxEvent.closeOutput j o.name := by
            intro h
            injection h with h1 h2
            omega
          have hrec := ih (j + 1) i nm
          have hidx : j + 1 + i = j + (i + 1) := by omega
          rw [hidx] at hrec
          simp [closeTrace, List.count_cons, hne, hrec]

/-- The whole run of a blocking mux, in closed form: every pre-registered
output gets the source appended to its delivered sequence and is then closed,
and the completion value is buffered in `Finished`. -/
theorem runAll_blocking (src : List α) (outs : List (output α)) :
    runAll { NewBlockingPairMux src with outputs := outs } =
      some { NewBlockingPairMux src with
        src := [],
        outputs := outs.map fun o =>
          { o with dst := { o.dst with buf := o.dst.buf ++ src, closed := true } },
        Finished := { cap := 1, buf := [true], closed := false } } := by
  rw [runAll_eq_distribute, shutdown_fresh _ rfl]
  have hd : distribute WriterKind.blockingW outs src =
      outs.map fun o => { o with dst := { o.dst with buf := o.dst.buf ++ src } } :=
    distribute_blockingW src outs
  show some _ = some _
  rw [show distribute ({ NewBlockingPairMux src with outputs := outs } : PairMux α).writer
        ({ NewBlockingPairMux src with outputs := outs } : PairMux α).outputs
        ({ NewBlockingPairMux src with outputs := outs } : PairMux α).src =
      outs.map fun o => { o with dst := { o.dst with buf := o.dst.buf ++ src } } from hd]
  simp [NewBlockingPairMux, List.map_map, Function.comp_def]

/-- C3: under the blocking strategy, for every sequence of items pushed to the
source before it is closed and every output registered before the first item
is read (a fresh, still-open channel), that output's queue receives exactly
those items, in source order, followed by the close of the channel
(end-of-stream). -/
theorem C3_blocking_delivers_all_in_order (src : List RequestResponsePair)
    (outs : List (output RequestResponsePair))
    (hfresh : ∀ o ∈ outs, o.dst.buf = [] ∧ o.dst.closed = false) :
    ∃ m', runAll { NewBlockingPairMux src with outputs := outs } = some m' ∧
      m'.outputs.length = outs.length ∧
      ∀ o' ∈ m'.outputs, o'.dst.buf = src ∧ o'.dst.closed = true := by
  refine ⟨_, runAll_blocking src outs, ?_, ?_⟩
  · simp
  · intro o' ho'
    rw [List.mem_map] at ho'
    obtain ⟨o, ho, heq⟩ := ho'
    obtain ⟨hbuf, _⟩ := hfresh o ho
    subst heq
    simp [hbuf]

/-- Witness for C3 at the spec's concrete scenario: items 1, 2, 3 and two
outputs of capacity 10. -/
theorem C3_blocking_delivers_all_in_order_witness :
    ∃ m', runAll { NewBlockingPairMux ([⟨1⟩, ⟨2⟩, ⟨3⟩] : List RequestResponsePair) with
        outputs := [⟨"a", ⟨10, [], false⟩⟩, ⟨"b", ⟨10, [], false⟩⟩] } = some m' ∧
      m'.outputs.length = 2 ∧
      ∀ o' ∈ m'.outputs,
        o'.dst.buf = ([⟨1⟩, ⟨2⟩, ⟨3⟩] : List RequestResponsePair) ∧
        o'.dst.closed = true :=
  C3_blocking_delivers_all_in_order ([⟨1⟩, ⟨2⟩, ⟨3⟩] : List RequestResponsePair)
    [⟨"a", ⟨10, [], false⟩⟩, ⟨"b", ⟨10, [], false⟩⟩] (by decide)

/-- C4: `Start` is idempotent.  Over any number `n` of successive `Start`
calls, the copying goroutine is launched `min n 1` times when the mux has not
been started yet and `0` times when it already has — so at most once in every
case — and a `Start` following a `Start` is a no-op that launches nothing. -/
theorem C4_start_idempotent (m : PairMux RequestResponsePair) (n : Nat) :
    (startN m n).2 = (if m.started then 0 else min n 1) ∧
    (startN m n).2 ≤ 1 ∧
    Start (Start m).1 = ((Start m).1, false) := by
  have hcount : ∀ (k : Nat) (mm : PairMux RequestResponsePair),
      (startN mm k).2 = if mm.started then 0 else min k 1 := by
    intro k
    induction k with
    | zero => intro mm; simp [startN]
    | succ k ih =>
        intro mm
        by_cases hs : mm.started
        · simp [startN, Start, hs, ih]
        · simp [startN, Start, hs, ih]
  refine ⟨hcount n m, ?_, ?_⟩
  · rw [hcount n m]
    split <;> omega
  · by_cases hs : m.started <;> simp [Start, hs]

/-- C6: under the non-blocking strategy, a write attempted against a full
destination leaves that destination unchanged (the item is dropped: not
delivered, not blocked on, not retried), and the `RunStep` iteration still
applies the writer to every remaining output and reports `true` so the loop
moves on to the next source item. -/
theorem C6_nonblocking_drops_on_full (m : PairMux RequestResponsePair)
    (o : output RequestResponsePair) (os : List (output RequestResponsePair))
    (item : RequestResponsePair) (rest : List RequestResponsePair)
    (hw : m.writer = .nonBlockingW) (hsrc : m.src = item :: rest)
    (houts : m.outputs = o :: os) (hfull : o.dst.cap ≤ o.dst.buf.length) :
    nonBlockingOutputWriter o item = o ∧
    RunStep m =
      ({ m with
          src := rest,
          outputs := o :: os.map fun p => nonBlockingOutputWriter p item }, true) := by
  have hdrop : nonBlockingOutputWriter o item = o := by
    simp [nonBlockingOutputWriter, Nat.not_lt.mpr hfull]
  refine ⟨hdrop, ?_⟩
  simp [RunStep, hsrc, houts, hw, writerApply, hdrop]

/-- Witness for C6: one item, a single capacity-0 output (the spec's
scenario 8 shape): the write is dropped and the step completes. -/
theorem C6_nonblocking_drops_on_full_witness :
    nonBlockingOutputWriter ⟨"o", ⟨0, [], false⟩⟩ (⟨1⟩ : RequestResponsePair) =
      ⟨"o", ⟨0, [], false⟩⟩ ∧
    RunStep { NewNonBlockingPairMux ([⟨1⟩] : List RequestResponsePair) 0 with
        outputs := [⟨"o", ⟨0, [], false⟩⟩] } =
      ({ NewNonBlockingPairMux ([] : List RequestResponsePair) 0 with
          outputs := [⟨"o", ⟨0, [], false⟩⟩] }, true) :=
  C6_nonblocking_drops_on_full
    { NewNonBlockingPairMux ([⟨1⟩] : List RequestResponsePair) 0 with
        outputs := [⟨"o", ⟨0, [], false⟩⟩] }
    ⟨"o", ⟨0, [], false⟩⟩ [] ⟨1⟩ []
    (by decide) (by decide) (by decide) (by decide)

/-- C8: `NewNonBlockingPairMux(src, 0)` selects exactly the plain
non-blocking writer, so for every output and item the configured writer's
state effect is `nonBlockingOutputWriter`. -/
theorem C8_zero_timeout_is_nonblocking (src : List RequestResponsePair) :
    (NewNonBlockingPairMux src 0).writer = .nonBlockingW ∧
    ∀ (o : output RequestResponsePair) (item : RequestResponsePair),
      writerApply (NewNonBlockingPairMux src 0).writer o item =
        nonBlockingOutputWriter o item := by
  have hw : (NewNonBlockingPairMux src 0).writer = .nonBlockingW := by
    simp [NewNonBlockingPairMux]
  exact ⟨hw, fun o item => by rw [hw, writerApply]⟩

/-- C9: `AddOutput` succeeds exactly for buffer capacities `≥ 0`, returning a
fresh open empty handle of that capacity appended to the registry; a negative
capacity makes `make(chan ..., buf)` panic (modelled as `none`). -/
theorem C9_addoutput_capacity_precondition (m : PairMux RequestResponsePair)
    (name : String) (buf : Int) :
    ((AddOutput m name buf).isSome ↔ 0 ≤ buf) ∧
    AddOutput m name buf =
      (if buf < 0 then none
       else some ({ m with outputs := m.outputs ++ [⟨name, ⟨buf.toNat, [], false⟩⟩] },
                  ⟨buf.toNat, [], false⟩)) := by
  constructor
  · simp only [AddOutput, makeChan]
    split
    · simpa using by omega
    · simpa using by omega
  · simp only [AddOutput, makeChan]
    split <;> simp

/-- Any mux whose `Finished` channel is still the fresh buffer-1 channel made
by the constructors completes its run: the final completion send finds room. -/
theorem runAll_isSome_of_fresh (m : PairMux α)
    (hfin : m.Finished = { cap := 1, buf := [], closed := false }) :
    (runAll m).isSome := by
  rw [runAll_eq_distribute]
  rw [shutdown_fresh { m with src := [], outputs := distribute m.writer m.outputs m.src } hfin]
  rfl

/-- C5: the completion signal fires exactly once per run and only after every
registered output's destination has been closed.  In the event trace of
`shutdown`: the single `signalFinished` event is the last event of the trace
(so every close precedes it), and each registered output's close event occurs
exactly once — a close for an unregistered position or a wrong name never
occurs. -/
theorem C5_signal_once_after_all_closes (outs : List (output RequestResponsePair)) :
    (shutdownTrace outs).count MuxEvent.signalFinished = 1 ∧
    (shutdownTrace outs).getLast? = some MuxEvent.signalFinished ∧
    (shutdownTrace outs).length = outs.length + 1 ∧
    ∀ (i : Nat) (nm : String),
      (shutdownTrace outs).count (MuxEvent.closeOutput i nm) =
        if (outs.get? i).map (fun o => o.name) = some nm then 1 else 0 := by
  refine ⟨?_, ?_, ?_, ?_⟩
  · simp [shutdownTrace, List.count_append, closeTrace_count_signal]
  · simp [shutdownTrace]
  · simp [shutdownTrace, closeTrace_length]
  · intro i nm
    have h := closeTrace_count outs 0 i nm
    rw [Nat.zero_add] at h
    simp [shutdownTrace, List.count_append, h]

/-- C10: both constructors make `Finished` with buffer capacity one, so the
completion send in `shutdown` never blocks: even when no caller of
`WaitUntilFinished` ever receives, the run still reaches the terminal state
(`isSome`: all outputs closed and the signal sent), whatever outputs were
registered. -/
theorem C10_completion_needs_no_waiter (src : List RequestResponsePair)
    (outs : List (output RequestResponsePair)) (t : Int) :
    (NewBlockingPairMux src).Finished.cap = 1 ∧
    (NewNonBlockingPairMux src t).Finished.cap = 1 ∧
    (runAll { NewBlockingPairMux src with outputs := outs }).isSome ∧
    (runAll { NewNonBlockingPairMux src t with outputs := outs }).isSome := by
  have hfin : (NewNonBlockingPairMux src t : PairMux RequestResponsePair).Finished =
      { cap := 1, buf := [], closed := false } := by
    by_cases ht : t = 0 <;> simp [NewNonBlockingPairMux, ht]
  refine ⟨rfl, by rw [hfin], ?_, ?_⟩
  · exact runAll_isSome_of_fresh _ rfl
  · exact runAll_isSome_of_fresh _ hfin

/-- C1 counterexample: the claim that every caller of `WaitUntilFinished`
returns once the completion signal has fired fails already at two callers:
`shutdown` sends a single value into the buffer-1 `Finished` channel and the
channel is never closed, so of two receivers exactly one returns. -/
theorem C1_broadcast_refuted :
    ((runAll (NewBlockingPairMux ([] : List RequestResponsePair))).map
        fun m => waitReturned m.Finished 2) = some 1 ∧
    ¬ ((runAll (NewBlockingPairMux ([] : List RequestResponsePair))).map
        fun m => waitReturned m.Finished 2) = some 2 := by
  decide

/-- C1 amended: `WaitUntilFinished` is a single-wakeup wait, not a broadcast:
after any run of the distributor, of `k` callers of `WaitUntilFinished`
(whether they called before or after `Start`) exactly `min k 1` return — one
caller consumes the single completion value and every further caller blocks
forever. -/
theorem C1_one_waiter_returns (src : List RequestResponsePair)
    (outs : List (output RequestResponsePair)) (k : Nat) :
    ((runAll { NewBlockingPairMux src with outputs := outs }).map
        fun m => waitReturned m.Finished k) = some (min k 1) := by
  rw [runAll_blocking]
  simp [waitReturned_one_value]

/-- C2 counterexample: an output registered after the run has reached
`Finished` is never closed: in the terminal state — after which the code
performs no further reads, writes or closes — its handle still reports
`closed = false`, refuting the claim that every output ever created is closed
(promptly or at all). -/
theorem C2_late_output_never_closed :
    ((runAll (NewBlockingPairMux ([] : List RequestResponsePair))).bind
        fun m => (AddOutput m "late" 0).map fun p => p.2.closed) = some false := by
  decide

/-- C2 amended: every output registered before `shutdown` runs has its
destination closed exactly once, only at shutdown, only after the source is
exhausted; but an output registered after the run has finished is never
closed and never receives items. -/
theorem C2_closed_iff_registered_before_shutdown (src : List RequestResponsePair)
    (outs : List (output RequestResponsePair)) (name : String) (buf : Int)
    (hbuf : 0 ≤ buf) :
    ((runAll { NewBlockingPairMux src with outputs := outs }).map
        fun m => m.outputs.all fun o => o.dst.closed) = some true ∧
    ((runAll { NewBlockingPairMux src with outputs := outs }).bind
        fun m => (AddOutput m name buf).map fun p => (p.2.closed, p.2.buf)) =
      some (false, ([] : List RequestResponsePair)) := by
  rw [runAll_blocking]
  constructor
  · simp [List.all_eq_true, List.mem_map]
  · simp [AddOutput, makeChan, Int.not_lt.mpr hbuf]

/-- Witness for C2 (amended): one item, one pre-registered output, one late
registration of capacity 0. -/
theorem C2_closed_iff_registered_before_shutdown_witness :
    ((runAll { NewBlockingPairMux ([⟨1⟩] : List RequestResponsePair) with
        outputs := [⟨"a", ⟨1, [], false⟩⟩] }).map
        fun m => m.outputs.all fun o => o.dst.closed) = some true ∧
    ((runAll { NewBlockingPairMux ([⟨1⟩] : List RequestResponsePair) with
        outputs := [⟨"a", ⟨1, [], false⟩⟩] }).bind
        fun m => (AddOutput m "late" 0).map fun p => (p.2.closed, p.2.buf)) =
      some (false, ([] : List RequestResponsePair)) :=
  C2_closed_iff_registered_before_shutdown ([⟨1⟩] : List RequestResponsePair)
    [⟨"a", ⟨1, [], false⟩⟩] "late" 0 (by decide)

/-- C7: every timed write attempt terminates, stalled at most until the timer
fires: a destination that never has room yields `timedOut` (the attempt is
abandoned rather than blocking forever), and a delivery happens only at a
tick where the destination had room, no later than the timer. -/
theorem C7_timed_write_bounded (timeout : Int) (space : Nat → Bool) :
    stallOf timeout (timedWrite timeout space) ≤ timerFire timeout ∧
    ((∀ t, space t = false) → timedWrite timeout space = .timedOut) ∧
    ∀ t, timedWrite timeout space = .delivered t →
      space t = true ∧ t ≤ timerFire timeout := by
  cases hfind : (List.range (timerFire timeout + 1)).find? space with
  | none =>
      refine ⟨?_, fun _ => ?_, fun t ht => ?_⟩
      · simp [timedWrite, hfind, stallOf]
      · simp [timedWrite, hfind]
      · simp [timedWrite, hfind] at ht
  | some t0 =>
      have hsp : space t0 = true := List.find?_some hfind
      have hmem : t0 ∈ List.range (timerFire timeout + 1) :=
        List.mem_of_find?_eq_some hfind
      have hle : t0 ≤ timerFire timeout := by
        have := List.mem_range.mp hmem
        omega
      refine ⟨?_, fun hall => ?_, fun t ht => ?_⟩
      · simp [timedWrite, hfind, stallOf, hle]
      · rw [hall t0] at hsp
        exact absurd hsp (by simp)
      · simp only [timedWrite, hfind] at ht
        injection ht with h
        subst h
        exact ⟨hsp, hle⟩

/-- Witness for C7: a duration-5 timer against a destination that never has
room times out with stall at most 5; against one that always has room the
write is delivered at tick 0. -/
theorem C7_timed_write_bounded_witness :
    stallOf 5 (timedWrite 5 fun _ => false) ≤ timerFire 5 ∧
    timedWrite 5 (fun _ => false) = WriteOutcome.timedOut ∧
    ((fun _ : Nat => true) 0 = true ∧ 0 ≤ timerFire 5) :=
  ⟨(C7_timed_write_bounded 5 fun _ => false).1,
   (C7_timed_write_bounded 5 fun _ => false).2.1 fun _ => rfl,
   (C7_timed_write_bounded 5 fun _ => true).2.2 0 rfl⟩

end Httpwatch
